import Mathlib

/-!
Verification of the transcription/diarization core of the scriptlift
repository.

The development shallowly embeds the code of
`src/services/diarizationService.ts`, `src/services/whisperService.ts` and
`supabase/functions/diarize/index.ts`.  JavaScript numbers are modelled by
`ℚ` (with `NaN` tracked explicitly as `Option` where it can arise), strings
by `String`, arrays by `List`, and the asynchronous worker protocol by an
explicit state machine over time-stamped message traces.
-/

/-- A transcription segment (`src/types`): a timestamp in seconds, the
recognized text, and a speaker label. -/
structure Segment where
  timestamp : ℚ
  text : String
  speaker : String
deriving DecidableEq

/-- JavaScript Math.round: round half towards positive infinity,
Math.round x = floor (x + 0.5).  Stated with the executable Rat.floor so
that it computes. -/
def jsRound (q : ℚ) : ℤ := Rat.floor (q + 1 / 2)

/-- JavaScript String.prototype.trim on a character list: drop whitespace
from both ends. -/
def trimChars (l : List Char) : List Char :=
  ((l.dropWhile Char.isWhitespace).reverse.dropWhile Char.isWhitespace).reverse

/-- JavaScript String.prototype.trim. -/
def jsTrim (s : String) : String := String.mk (trimChars s.data)

/-- JavaScript `a || d` for an optional string `a`: the default is taken
when the string is absent (undefined) or empty (falsy). -/
def jsStringOr (a : Option String) (d : String) : String :=
  match a with
  | none => d
  | some s => if s = "" then d else s

/-- Leading decimal digits of a character list. -/
def leadingDigits (l : List Char) : List Char := l.takeWhile Char.isDigit

/-- Numeric value of a list of decimal digits. -/
def digitsVal (l : List Char) : ℕ := l.foldl (fun acc c => acc * 10 + (c.toNat - 48)) 0

/-- JavaScript parseInt(s, 10): skip leading whitespace, accept an optional
sign, then read a maximal run of decimal digits; `none` models NaN (no
digit found). -/
def jsParseInt (s : String) : Option ℤ :=
  match s.data.dropWhile Char.isWhitespace with
  | '-' :: rest =>
      if leadingDigits rest = [] then none else some (-(digitsVal (leadingDigits rest) : ℤ))
  | '+' :: rest =>
      if leadingDigits rest = [] then none else some (digitsVal (leadingDigits rest))
  | rest =>
      if leadingDigits rest = [] then none else some (digitsVal (leadingDigits rest))

/-- Rendering of a JavaScript number (possibly NaN) inside a template
string. -/
def jsNumToString (n : Option ℤ) : String :=
  match n with
  | none => "NaN"
  | some z => toString z

/-- Match of the regex literal /Speaker (\\d+)/ of diarizationService.ts
line 60 at the head of a character list, returning the text of the capture
group.  Because the backslash is doubled inside the regex literal, the
pattern matches the literal characters "Speaker " followed by a backslash
character and one or more letters d; the capture group is the backslash
together with the greedy run of d characters. -/
def speakerHeadCapture (l : List Char) : Option (List Char) :=
  if l.take 10 = ['S', 'p', 'e', 'a', 'k', 'e', 'r', ' ', '\\', 'd'] then
    some ('\\' :: 'd' :: (l.drop 10).takeWhile (fun c => c = 'd'))
  else none

/-- Leftmost match of the regex: try the pattern at each position in
turn. -/
def speakerCapture : List Char → Option (List Char)
  | [] => none
  | c :: rest =>
      match speakerHeadCapture (c :: rest) with
      | some cap => some cap
      | none => speakerCapture rest

/-- Per-segment relabelling step of diarizeSegments
(diarizationService.ts lines 57-67): for a batch after the first with a
truthy (non-empty) speaker label, run the regex /Speaker (\\d+)/; on a
match, parseInt the capture and emit a label carrying the number plus the
speaker offset (NaN propagates into the label text when the capture does
not parse). -/
def adjustSegment (speakerOffset : ℕ) (batchIndex : ℕ) (seg : Segment) : Segment :=
  if batchIndex > 0 ∧ seg.speaker ≠ "" then
    match speakerCapture seg.speaker.data with
    | some cap =>
        { seg with
          speaker := "Speaker " ++ jsNumToString ((jsParseInt (String.mk cap)).map (· + (speakerOffset : ℤ))) }
    | none => seg
  else seg

/-- Batch bound of diarizeSegments (diarizationService.ts line 27). -/
def MAX_SEGMENTS_PER_BATCH : ℕ := 100

/-- Fuel-indexed splitting of a segment list into consecutive slices of at
most MAX_SEGMENTS_PER_BATCH segments (the for loop of
diarizationService.ts lines 30-32); the fuel is an upper bound on the
number of slices and is instantiated with the list length. -/
def toBatchesAux : ℕ → List Segment → List (List Segment)
  | 0, _ => []
  | _, [] => []
  | fuel + 1, l@(_ :: _) =>
      l.take MAX_SEGMENTS_PER_BATCH :: toBatchesAux fuel (l.drop MAX_SEGMENTS_PER_BATCH)

/-- The batch list built by diarizeSegments. -/
def toBatches (l : List Segment) : List (List Segment) := toBatchesAux l.length l

/-- Outcome of one supabase.functions.invoke("diarize") call as observed by
diarizeSegments: an error result, a success whose body lacks a segments
field, a success carrying segments, or a thrown exception (caught by the
surrounding try/catch). -/
inductive ClassifyOutcome where
  | err : ClassifyOutcome
  | noData : ClassifyOutcome
  | data : List Segment → ClassifyOutcome
  | thrown : ClassifyOutcome

/-- The batch loop of diarizeSegments (diarizationService.ts lines 37-79),
parameterized by the classification service; returns `none` when a call
throws, in which case the caller's catch block takes over.  On an error
result or a missing segments field the original batch is kept and the
speaker offset is left unchanged; on returned segments the batch is
relabelled and the offset becomes the number of distinct speaker labels of
the relabelled batch. -/
def runBatches (classify : List Segment → ClassifyOutcome) :
    ℕ → ℕ → List (List Segment) → Option (List Segment)
  | _, _, [] => some []
  | batchIndex, speakerOffset, batch :: rest =>
    match classify batch with
    | ClassifyOutcome.thrown => none
    | ClassifyOutcome.err =>
        (runBatches classify (batchIndex + 1) speakerOffset rest).map (batch ++ ·)
    | ClassifyOutcome.noData =>
        (runBatches classify (batchIndex + 1) speakerOffset rest).map (batch ++ ·)
    | ClassifyOutcome.data segs =>
        let batchSegments := segs.map (adjustSegment speakerOffset batchIndex)
        let newOffset := (batchSegments.map Segment.speaker).dedup.length
        (runBatches classify (batchIndex + 1) newOffset rest).map (batchSegments ++ ·)

/-- diarizeSegments (diarizationService.ts lines 9-91): empty and very
short (at most 2 segments) inputs are returned unchanged; otherwise the
input is split into batches of at most 100 which are classified in order;
a thrown exception anywhere makes the catch block return the original
input. -/
def diarizeSegments (classify : List Segment → ClassifyOutcome)
    (segments : List Segment) : List Segment :=
  if segments.length = 0 then segments
  else if segments.length ≤ 2 then segments
  else
    match runBatches classify 0 0 (toBatches segments) with
    | some res => res
    | none => segments

/-- A speaker assignment returned by the AI gateway
(supabase/functions/diarize/index.ts line 103). -/
structure SpeakerAssignment where
  index : ℤ
  speaker : String

/-- The segment-rewriting step of the diarize edge function
(supabase/functions/diarize/index.ts lines 121-127): each segment keeps
its timestamp and text, and takes the speaker of the assignment with its
index when one exists and its label is truthy, keeping its own speaker
otherwise. -/
def applyAssignments (speakerAssignments : List SpeakerAssignment)
    (segments : List Segment) : List Segment :=
  segments.mapIdx fun i seg =>
    match speakerAssignments.find? (fun a => a.index = (i : ℤ)) with
    | some a => { seg with speaker := if a.speaker = "" then seg.speaker else a.speaker }
    | none => { seg with speaker := seg.speaker }

/-- Timestamp and text of every segment, in order: the part of a segment
list that speaker relabelling must never change. -/
def shape (l : List Segment) : List (ℚ × String) :=
  l.map fun s => (s.timestamp, s.text)

/-- Whisper's required sample rate (whisperService.ts line 4). -/
def TARGET_SAMPLE_RATE : ℚ := 16000

/-- Error message thrown by downsampleBuffer on an upsampling request
(whisperService.ts line 201). -/
def unsupportedSampleRateMessage : String :=
  "Unsupported audio sample rate. Please convert to MP3/WAV and try again."

/-- Body of the while loop of downsampleBuffer (whisperService.ts lines
211-222), unrolled over the number of output samples still to produce:
each step rounds the exclusive window end, averages the input samples of
the window (clipped to the input length), falls back to the sample at the
window start (or 0 past the end) when the window is empty, and continues
with the window end as the next window start. -/
def downsampleLoop (input : List ℚ) (r : ℚ) : ℕ → ℕ → ℕ → List ℚ
  | 0, _, _ => []
  | rem + 1, outputOffset, inputOffset =>
      let nextInputOffset := (jsRound (((outputOffset : ℚ) + 1) * r)).toNat
      let window := (input.drop inputOffset).take (nextInputOffset - inputOffset)
      let value := if window.length = 0 then input.getD inputOffset 0 else window.sum / (window.length : ℚ)
      value :: downsampleLoop input r rem (outputOffset + 1) nextInputOffset

/-- downsampleBuffer (whisperService.ts lines 193-225): identity when the
rates agree, an error on an upsampling request, and otherwise
block-averaging decimation producing round(length / (inputRate /
outputRate)) samples. -/
def downsampleBuffer (input : List ℚ) (inputSampleRate outputSampleRate : ℚ) :
    Except String (List ℚ) :=
  if inputSampleRate = outputSampleRate then Except.ok input
  else if inputSampleRate < outputSampleRate then Except.error unsupportedSampleRateMessage
  else
    let r := inputSampleRate / outputSampleRate
    let outputLength := (jsRound ((input.length : ℚ) / r)).toNat
    Except.ok (downsampleLoop input r outputLength 0 0)

/-- The window value downsampleBuffer produces for output index i, with
both window boundaries given in closed form: the loop's running input
offset at step i equals round(i * r).  Used to state the per-sample
characterization of the loop. -/
def codeWindowValue (input : List ℚ) (r : ℚ) (i : ℕ) : ℚ :=
  let lo := (jsRound ((i : ℚ) * r)).toNat
  let hi := (jsRound (((i : ℚ) + 1) * r)).toNat
  let window := (input.drop lo).take (hi - lo)
  if window.length = 0 then input.getD lo 0 else window.sum / (window.length : ℚ)

/-- The input window the specification sentence assigns to output index i:
the samples whose position j satisfies i * r ≤ j < (i + 1) * r.  Follows
the words of the spec, for comparison with the code. -/
def specWindow (input : List ℚ) (r : ℚ) (i : ℕ) : List ℚ :=
  ((List.range input.length).filter
    (fun j : ℕ => (i : ℚ) * r ≤ (j : ℚ) ∧ (j : ℚ) < ((i : ℚ) + 1) * r)).map
    (fun j : ℕ => input.getD j 0)

/-- Arithmetic mean of the spec-side window. -/
def specWindowMean (input : List ℚ) (r : ℚ) (i : ℕ) : ℚ :=
  (specWindow input r i).sum / ((specWindow input r i).length : ℚ)

/-- Seconds of audio represented by a 16 kHz sample buffer
(whisperService.ts line 273). -/
def audioSecondsOf (audio : List ℚ) : ℚ := (audio.length : ℚ) / TARGET_SAMPLE_RATE

/-- Dynamic transcription timeout of transcribeWithWhisper
(whisperService.ts lines 279-282): the audio duration times 20000 ms,
rounded, clamped between 30 minutes and 6 hours. -/
def transcriptionTimeoutMs (audioSeconds : ℚ) : ℤ :=
  min (6 * 60 * 60 * 1000) (max (30 * 60 * 1000) (jsRound (audioSeconds * 20 * 1000)))

/-- Timestamp of an engine chunk: a pair array, a plain number, or absent
(undefined). -/
inductive JsTimestamp where
  | arr : ℚ → ℚ → JsTimestamp
  | num : ℚ → JsTimestamp
  | undef : JsTimestamp

/-- One chunk of the engine's output; the text may be absent. -/
structure EngineChunk where
  timestamp : JsTimestamp
  text : Option String

/-- The engine's complete output: a whole-text field and a chunk list,
either of which may be absent. -/
structure EngineOutput where
  text : Option String
  chunks : Option (List EngineChunk)

/-- Value of the chunk-timestamp expression of whisperService.ts line 309:
the first element when the timestamp is an array, otherwise the timestamp
coerced with || 0 (so 0 for an undefined or falsy value; a falsy rational
number is 0 itself). -/
def jsTimestampValue (t : JsTimestamp) : ℚ :=
  match t with
  | JsTimestamp.arr a _ => a
  | JsTimestamp.num n => if n = 0 then 0 else n
  | JsTimestamp.undef => 0

/-- Mapping of one engine chunk to a segment (whisperService.ts lines
308-312). -/
def chunkToSegment (c : EngineChunk) : Segment :=
  { timestamp := jsTimestampValue c.timestamp
    text := jsTrim (jsStringOr c.text "")
    speaker := "Speaker 1" }

/-- Fixed fallback text used when the engine yields no chunks and no
usable whole text (whisperService.ts line 303). -/
def noTranscriptionPlaceholder : String := "No transcription available"

/-- Conversion of a complete engine response to raw segments
(whisperService.ts lines 296-314): with zero chunks, one segment at
timestamp 0 holding the trimmed whole text or the placeholder; otherwise
one segment per chunk. -/
def completeToSegments (output : Option EngineOutput) : List Segment :=
  let chunks := (output.bind EngineOutput.chunks).getD []
  if chunks.length = 0 then
    [{ timestamp := 0
       text := jsStringOr ((output.bind EngineOutput.text).map jsTrim) noTranscriptionPlaceholder
       speaker := "Speaker 1" }]
  else chunks.map chunkToSegment

/-- Module state of whisperService.ts lines 101-103: the worker reference
(identified by its creation number), whether a workerReadyPromise object
is stored, the workerReady flag, and the id the next created worker will
receive. -/
structure SupervisorState where
  worker : Option ℕ
  workerReadyPromise : Bool
  workerReady : Bool
  nextWorkerId : ℕ
deriving DecidableEq

/-- resetWorker (whisperService.ts lines 115-122): terminate any worker
and clear all module state. -/
def resetWorker (s : SupervisorState) : SupervisorState :=
  { s with worker := none, workerReadyPromise := false, workerReady := false }

/-- createWorker (whisperService.ts lines 105-113): a brand-new worker
context with a fresh identity. -/
def createWorker (s : SupervisorState) : ℕ × SupervisorState :=
  (s.nextWorkerId, { s with worker := some s.nextWorkerId, nextWorkerId := s.nextWorkerId + 1 })

/-- getOrCreateWorker (whisperService.ts lines 124-135). -/
def getOrCreateWorker (s : SupervisorState) : ℕ × SupervisorState :=
  match s.worker with
  | some w => (w, s)
  | none => createWorker s

/-- Messages a worker posts during the load phase. -/
inductive WorkerMsg where
  | alive : WorkerMsg
  | ready : WorkerMsg
  | progress : String → WorkerMsg
  | error : String → WorkerMsg
deriving DecidableEq

/-- Settlement of the workerReadyPromise: resolution or rejection, with
the time (ms since the load began) at which it happens. -/
inductive LoadOutcome where
  | resolved : ℕ → LoadOutcome
  | rejected : ℕ → String → LoadOutcome
deriving DecidableEq

/-- The load timeout of initializeWorker (whisperService.ts line 149):
5 minutes. -/
def loadTimeoutMs : ℕ := 5 * 60 * 1000

/-- Rejection message of the load timeout (whisperService.ts line 148). -/
def loadTimeoutMessage : String := "Model loading timed out. Please refresh and try again."

/-- The promise executor of initializeWorker (whisperService.ts lines
144-173) run against a time-ordered trace of worker messages: the timeout
scheduled at registration fires at loadTimeoutMs, so any message arriving
at or after that instant is preempted by the timeout, which resets the
worker and rejects; a ready message resolves and marks the worker ready;
an error message resets the worker and rejects; alive and progress
messages do not settle the promise (an exhausted trace is settled by the
pending timeout). -/
def runLoadHandler (s : SupervisorState) : List (ℕ × WorkerMsg) → LoadOutcome × SupervisorState
  | [] => (LoadOutcome.rejected loadTimeoutMs loadTimeoutMessage, resetWorker s)
  | p :: rest =>
      if loadTimeoutMs ≤ p.1 then
        (LoadOutcome.rejected loadTimeoutMs loadTimeoutMessage, resetWorker s)
      else
        match p.2 with
        | WorkerMsg.alive => runLoadHandler s rest
        | WorkerMsg.progress _ => runLoadHandler s rest
        | WorkerMsg.ready => (LoadOutcome.resolved p.1, { s with workerReady := true })
        | WorkerMsg.error e => (LoadOutcome.rejected p.1 e, resetWorker s)

/-- initializeWorker (whisperService.ts lines 137-176): reuse the cached
promise when the worker is already ready, otherwise get or create the
worker, store a fresh workerReadyPromise and run its executor against the
load-phase message trace. -/
def initializeWorker (s : SupervisorState) (messages : List (ℕ × WorkerMsg)) :
    LoadOutcome × SupervisorState :=
  if s.workerReady ∧ s.workerReadyPromise then (LoadOutcome.resolved 0, s)
  else
    let ws := getOrCreateWorker s
    runLoadHandler { ws.2 with workerReadyPromise := true } messages

/-- transcribeWithWhisper (whisperService.ts lines 261-337) as a state
transformer over the supervisor state.  The environment supplies the
load-phase message trace, the outcome of getAudioData, the engine's
response as a function of the dynamic timeout passed to the transcription
promise, and the classification service used for diarization.  The catch
block applies resetWorker before re-throwing any error. -/
def transcribeWithWhisper (initMessages : List (ℕ × WorkerMsg))
    (decodeResult : Except String (List ℚ))
    (engine : ℤ → Except String (Option EngineOutput))
    (classify : List Segment → ClassifyOutcome)
    (s : SupervisorState) : Except String (List Segment) × SupervisorState :=
  match initializeWorker s initMessages with
  | (LoadOutcome.rejected _ e, s1) => (Except.error e, resetWorker s1)
  | (LoadOutcome.resolved _, s1) =>
      let s2 := (getOrCreateWorker s1).2
      match decodeResult with
      | Except.error e => (Except.error e, resetWorker s2)
      | Except.ok audioData =>
          match engine (transcriptionTimeoutMs (audioSecondsOf audioData)) with
          | Except.error e => (Except.error e, resetWorker s2)
          | Except.ok output =>
              (Except.ok (diarizeSegments classify (completeToSegments output)), s2)

/-- The per-batch action of the diarizeSegments loop body, as a function
of the batch alone: keep the batch on an error or missing-data result, and
relabel the returned segments otherwise.  The speaker offset is written as
0 because relabelling is proved independent of it. -/
def batchResult (classify : List Segment → ClassifyOutcome) (batchIndex : ℕ)
    (batch : List Segment) : List Segment :=
  match classify batch with
  | ClassifyOutcome.data segs => segs.map (adjustSegment 0 batchIndex)
  | _ => batch

/-- A demonstration segment. -/
def demoSegment : Segment := { timestamp := 0, text := "x", speaker := "Speaker 1" }

/-- 150 identical placeholder segments: two batches of 100 and 50. -/
def demoSegments : List Segment := List.replicate 150 demoSegment

/-- A classification service that labels the first segment of any batch of
more than one segment "Speaker 2" and every other segment "Speaker 1", so
the first batch of demoSegments yields exactly two distinct speakers. -/
def demoClassify : List Segment → ClassifyOutcome :=
  fun b => ClassifyOutcome.data (b.mapIdx fun i s =>
    { s with speaker := if i = 0 ∧ 1 < b.length then "Speaker 2" else "Speaker 1" })

/-- A classification service that fails on every batch. -/
def demoClassifyErr : List Segment → ClassifyOutcome := fun _ => ClassifyOutcome.err

/-- A classification service that throws on every batch. -/
def demoClassifyThrow : List Segment → ClassifyOutcome := fun _ => ClassifyOutcome.thrown

/-- Three concrete segments (the shortest input diarizeSegments actually
processes). -/
def demoSegments3 : List Segment :=
  [{ timestamp := 0, text := "a", speaker := "Speaker 1" },
   { timestamp := 2, text := "b", speaker := "Speaker 1" },
   { timestamp := 5, text := "c", speaker := "Speaker 1" }]

/-- Concrete speaker assignments for the edge-function model. -/
def demoAssignments : List SpeakerAssignment :=
  [{ index := 0, speaker := "Speaker 2" }, { index := 2, speaker := "Speaker 1" }]

/-- A classification service behaving exactly like the diarize edge
function on a successful AI response: it rewrites speakers through
applyAssignments. -/
def demoClassifyEdge : List Segment → ClassifyOutcome :=
  fun b => ClassifyOutcome.data (applyAssignments demoAssignments b)

/-!  Theorems. -/

theorem jsRound_eq_floor (q : ℚ) : jsRound q = ⌊q + 1 / 2⌋ := by
  unfold jsRound
  rw [Rat.floor_def', Rat.floor_def]

theorem jsRound_eq (a : ℚ) (z : ℤ) (h1 : (z : ℚ) ≤ a + 1 / 2) (h2 : a + 1 / 2 < z + 1) :
    jsRound a = z := by
  rw [jsRound_eq_floor]
  exact Int.floor_eq_iff.2 ⟨h1, h2⟩

theorem jsRound_natCast (n : ℕ) : jsRound (n : ℚ) = n := by
  refine jsRound_eq _ _ (by norm_num) (by norm_num)

theorem jsRound_zero : jsRound 0 = 0 := by
  simpa using jsRound_natCast 0

/-- C7: for every audio duration d in seconds, the transcription timeout
used by transcribeWithWhisper equals
min(6*60*60*1000, max(30*60*1000, round(d * 20 * 1000))) milliseconds,
i.e. d * 20 seconds clamped to a 30-minute floor and a 6-hour ceiling. -/
theorem transcription_timeout_clamped (d : ℚ) :
    transcriptionTimeoutMs d =
      min (6 * 60 * 60 * 1000) (max (30 * 60 * 1000) (jsRound (d * 20 * 1000))) ∧
    30 * 60 * 1000 ≤ transcriptionTimeoutMs d ∧
    transcriptionTimeoutMs d ≤ 6 * 60 * 60 * 1000 ∧
    (jsRound (d * 20 * 1000) ≤ 30 * 60 * 1000 → transcriptionTimeoutMs d = 30 * 60 * 1000) ∧
    (6 * 60 * 60 * 1000 ≤ jsRound (d * 20 * 1000) → transcriptionTimeoutMs d = 6 * 60 * 60 * 1000) ∧
    (30 * 60 * 1000 ≤ jsRound (d * 20 * 1000) → jsRound (d * 20 * 1000) ≤ 6 * 60 * 60 * 1000 →
      transcriptionTimeoutMs d = jsRound (d * 20 * 1000)) := by
  unfold transcriptionTimeoutMs
  refine ⟨rfl, ?_, ?_, ?_, ?_, ?_⟩ <;> omega

/-- Witness for C7: a 10-second recording gets the 30-minute floor. -/
theorem transcription_timeout_clamped_witness :
    transcriptionTimeoutMs 10 = 30 * 60 * 1000 := by
  refine (transcription_timeout_clamped 10).2.2.2.1 ?_
  rw [show ((10 : ℚ) * 20 * 1000) = ((200000 : ℕ) : ℚ) by norm_num, jsRound_natCast]
  norm_num

/-- C8: for every input where the input rate is below the output rate,
downsampleBuffer throws the unsupported-sample-rate error and never
returns a buffer. -/
theorem upsampling_always_fails (input : List ℚ) (inputSampleRate outputSampleRate : ℚ)
    (h : inputSampleRate < outputSampleRate) :
    downsampleBuffer input inputSampleRate outputSampleRate =
      Except.error unsupportedSampleRateMessage ∧
    ∀ out, downsampleBuffer input inputSampleRate outputSampleRate ≠ Except.ok out := by
  have hne : inputSampleRate ≠ outputSampleRate := ne_of_lt h
  constructor
  · simp [downsampleBuffer, hne, h]
  · intro out hout
    rw [downsampleBuffer, if_neg hne, if_pos h] at hout
    exact Except.noConfusion hout

/-- Witness for C8: a request to upsample 8 kHz audio to 16 kHz fails. -/
theorem upsampling_always_fails_witness :
    downsampleBuffer [1, 2] 8000 16000 = Except.error unsupportedSampleRateMessage :=
  (upsampling_always_fails [1, 2] 8000 16000 (by norm_num)).1

/-- C9: every engine chunk maps to a segment whose timestamp is the first
element of an array timestamp, the number itself for a numeric timestamp,
and 0 for an absent timestamp; whose text is the chunk text trimmed of
surrounding whitespace (the empty string when absent); and whose speaker
is the placeholder "Speaker 1". -/
theorem chunk_segment_fields (c : EngineChunk) :
    (chunkToSegment c).timestamp =
      (match c.timestamp with
       | JsTimestamp.arr a _ => a
       | JsTimestamp.num n => n
       | JsTimestamp.undef => 0) ∧
    (chunkToSegment c).text = jsTrim (match c.text with | some t => t | none => "") ∧
    (chunkToSegment c).speaker = "Speaker 1" := by
  obtain ⟨ts, tx⟩ := c
  refine ⟨?_, ?_, rfl⟩
  · cases ts with
    | arr a b => rfl
    | num n => by_cases h : n = 0 <;> simp [chunkToSegment, jsTimestampValue, h]
    | undef => rfl
  · cases tx with
    | none => rfl
    | some t => by_cases h : t = "" <;> simp [chunkToSegment, jsStringOr, h]

theorem speakerCapture_shape : ∀ {l cap : List Char}, speakerCapture l = some cap →
    ∃ t, cap = '\\' :: 'd' :: t := by
  intro l
  induction l with
  | nil => intro cap h; simp [speakerCapture] at h
  | cons c rest ih =>
      intro cap h
      rw [speakerCapture] at h
      cases hh : speakerHeadCapture (c :: rest) with
      | some cap' =>
          rw [hh] at h
          unfold speakerHeadCapture at hh
          split at hh
          · cases hh; cases h; exact ⟨_, rfl⟩
          · exact Option.noConfusion hh
      | none =>
          rw [hh] at h
          exact ih h

theorem jsParseInt_capture {l cap : List Char} (h : speakerCapture l = some cap) :
    jsParseInt (String.mk cap) = none := by
  obtain ⟨t, rfl⟩ := speakerCapture_shape h
  rfl

theorem adjustSegment_offset_irrelevant (o o' bi : ℕ) (s : Segment) :
    adjustSegment o bi s = adjustSegment o' bi s := by
  unfold adjustSegment
  split
  · cases hcap : speakerCapture s.speaker.data with
    | none => rfl
    | some cap => simp [jsParseInt_capture hcap, jsNumToString]
  · rfl

theorem adjustSegment_timestamp_text (o bi : ℕ) (s : Segment) :
    (adjustSegment o bi s).timestamp = s.timestamp ∧ (adjustSegment o bi s).text = s.text := by
  unfold adjustSegment
  split
  · cases hcap : speakerCapture s.speaker.data <;> simp [hcap]
  · exact ⟨rfl, rfl⟩

theorem shape_append (l1 l2 : List Segment) : shape (l1 ++ l2) = shape l1 ++ shape l2 :=
  List.map_append _ _ _

theorem shape_map_adjust (o bi : ℕ) (l : List Segment) :
    shape (l.map (adjustSegment o bi)) = shape l := by
  unfold shape
  rw [List.map_map]
  refine List.map_congr_left ?_
  intro s _
  exact congrArg₂ Prod.mk (adjustSegment_timestamp_text o bi s).1
    (adjustSegment_timestamp_text o bi s).2

theorem toBatchesAux_nil (fuel : ℕ) : toBatchesAux fuel [] = [] := by
  cases fuel <;> rfl

theorem toBatchesAux_flatten : ∀ (fuel : ℕ) (l : List Segment), l.length ≤ fuel →
    (toBatchesAux fuel l).flatten = l := by
  intro fuel
  induction fuel with
  | zero =>
      intro l hl
      rw [List.length_eq_zero.1 (Nat.le_zero.1 hl)]
      rfl
  | succ n ih =>
      intro l hl
      cases l with
      | nil => rfl
      | cons a t =>
          rw [toBatchesAux, List.flatten_cons, ih _ ?_, List.take_append_drop]
          rw [List.length_drop]
          simp only [List.length_cons] at hl
          simp only [MAX_SEGMENTS_PER_BATCH, List.length_cons]
          omega

theorem toBatches_flatten (l : List Segment) : (toBatches l).flatten = l :=
  toBatchesAux_flatten l.length l le_rfl

theorem toBatches_singleton (l : List Segment) (h0 : l ≠ [])
    (h1 : l.length ≤ MAX_SEGMENTS_PER_BATCH) : toBatches l = [l] := by
  unfold toBatches
  cases l with
  | nil => exact absurd rfl h0
  | cons a t =>
      simp only [List.length_cons]
      rw [toBatchesAux, List.take_of_length_le h1, List.drop_eq_nil_of_le h1, toBatchesAux_nil]

theorem mapIdxAgree {α β : Type} (f g : ℕ → α → β) :
    ∀ l : List α, (∀ j, (hj : j < l.length) → f j l[j] = g j l[j]) →
      l.mapIdx f = l.mapIdx g := by
  intro l
  induction l generalizing f g with
  | nil => intro _; rfl
  | cons a t ih =>
      intro h
      have h0 := h 0 (Nat.succ_pos _)
      simp only [List.getElem_cons_zero] at h0
      rw [List.mapIdx_cons, List.mapIdx_cons, h0,
        ih (fun i => f (i + 1)) (fun i => g (i + 1)) ?_]
      intro j hj
      have hsucc := h (j + 1) (Nat.succ_lt_succ hj)
      simpa only [List.getElem_cons_succ] using hsucc

theorem shape_mapIdx (f : ℕ → Segment → Segment)
    (hf : ∀ i s, (f i s).timestamp = s.timestamp ∧ (f i s).text = s.text) :
    ∀ l : List Segment, shape (l.mapIdx f) = shape l := by
  intro l
  induction l generalizing f with
  | nil => rfl
  | cons a t ih =>
      rw [List.mapIdx_cons]
      show ((f 0 a).timestamp, (f 0 a).text) :: shape (t.mapIdx fun i => f (i + 1)) =
        (a.timestamp, a.text) :: shape t
      rw [(hf 0 a).1, (hf 0 a).2, ih (fun i => f (i + 1)) (fun i s => hf (i + 1) s)]

theorem applyAssignments_shape (speakerAssignments : List SpeakerAssignment)
    (segments : List Segment) :
    shape (applyAssignments speakerAssignments segments) = shape segments := by
  unfold applyAssignments
  refine shape_mapIdx _ (fun i s => ?_) segments
  cases h : speakerAssignments.find? (fun a => a.index = (i : ℤ)) <;> simp [h]

theorem runBatches_eq_mapIdx (classify : List Segment → ClassifyOutcome) :
    ∀ (batches : List (List Segment)) (batchIndex speakerOffset : ℕ),
      (∀ b ∈ batches, classify b ≠ ClassifyOutcome.thrown) →
      runBatches classify batchIndex speakerOffset batches =
        some ((batches.mapIdx fun j b => batchResult classify (batchIndex + j) b).flatten) := by
  intro batches
  induction batches with
  | nil => intro bi off _; rfl
  | cons b rest ih =>
      intro bi off h
      have hrest : ∀ x ∈ rest, classify x ≠ ClassifyOutcome.thrown :=
        fun x hx => h x (List.mem_cons_of_mem _ hx)
      have hshift : rest.mapIdx (fun j x => batchResult classify (bi + (j + 1)) x) =
          rest.mapIdx (fun j x => batchResult classify (bi + 1 + j) x) :=
        mapIdxAgree _ _ rest (fun j hj => by rw [Nat.add_succ, Nat.succ_add])
      rw [List.mapIdx_cons, List.flatten_cons]
      cases hc : classify b with
      | thrown => exact absurd hc (h b (List.mem_cons_self b rest))
      | err =>
          rw [runBatches]
          simp only [hc]
          rw [ih (bi + 1) off hrest, Option.map_some', hshift]
          simp [batchResult, hc]
      | noData =>
          rw [runBatches]
          simp only [hc]
          rw [ih (bi + 1) off hrest, Option.map_some', hshift]
          simp [batchResult, hc]
      | data segs =>
          rw [runBatches]
          simp only [hc]
          rw [ih (bi + 1) _ hrest, Option.map_some', hshift]
          have hoff : segs.map (adjustSegment off bi) = segs.map (adjustSegment 0 bi) :=
            List.map_congr_left (fun s _ => adjustSegment_offset_irrelevant off 0 bi s)
          simp only [hoff]
          simp [batchResult, hc]

theorem runBatches_none (classify : List Segment → ClassifyOutcome) :
    ∀ (batches : List (List Segment)) (bi off : ℕ),
      (∃ b ∈ batches, classify b = ClassifyOutcome.thrown) →
      runBatches classify bi off batches = none := by
  intro batches
  induction batches with
  | nil =>
      rintro bi off ⟨b, hb, -⟩
      simp at hb
  | cons b rest ih =>
      rintro bi off ⟨x, hx, hthrow⟩
      rw [runBatches]
      rcases List.mem_cons.1 hx with rfl | hx'
      · simp only [hthrow]
      · cases hc : classify b <;>
          simp [hc, ih _ _ ⟨x, hx', hthrow⟩]

theorem runBatches_shape (classify : List Segment → ClassifyOutcome)
    (hclassify : ∀ b r, classify b = ClassifyOutcome.data r → shape r = shape b) :
    ∀ (batches : List (List Segment)) (bi off : ℕ) (res : List Segment),
      runBatches classify bi off batches = some res → shape res = shape batches.flatten := by
  intro batches
  induction batches with
  | nil =>
      intro bi off res h
      cases h
      rfl
  | cons b rest ih =>
      intro bi off res h
      rw [runBatches] at h
      cases hc : classify b with
      | thrown => rw [hc] at h; exact Option.noConfusion h
      | err =>
          rw [hc] at h
          obtain ⟨res', hres', rfl⟩ := Option.map_eq_some'.1 h
          rw [List.flatten_cons, shape_append, shape_append, ih _ _ _ hres']
      | noData =>
          rw [hc] at h
          obtain ⟨res', hres', rfl⟩ := Option.map_eq_some'.1 h
          rw [List.flatten_cons, shape_append, shape_append, ih _ _ _ hres']
      | data segs =>
          rw [hc] at h
          simp only at h
          obtain ⟨res', hres', rfl⟩ := Option.map_eq_some'.1 h
          rw [List.flatten_cons, shape_append, shape_append, ih _ _ _ hres',
            shape_map_adjust, hclassify b segs hc]

set_option maxRecDepth 100000 in
/-- C1: according to the claim, in every batch after the first each
returned label of the form "Speaker n" is rewritten to
"Speaker (n + offset)" with offset the distinct-speaker count of the
preceding batch.  Evaluating the code refutes this: on 150 identical
segments split into batches of 100 and 50, where the classification
service gives batch 0 exactly 2 distinct speakers and labels the second
segment of batch 1 "Speaker 1", the returned label at position 101 is
still "Speaker 1" — never offset — because the regex literal
/Speaker (\\d+)/ requires a literal backslash and therefore matches no
numeric label. -/
theorem second_batch_labels_not_offset :
    (((diarizeSegments demoClassify demoSegments).map Segment.speaker).take
        MAX_SEGMENTS_PER_BATCH).dedup.length = 2 ∧
    ((diarizeSegments demoClassify demoSegments).map Segment.speaker).getD 101 "" =
      "Speaker 1" ∧
    ("Speaker 1" : String) ≠ "Speaker 3" ∧
    ("Speaker 1" : String) ≠ "Speaker NaN" :=
  ⟨rfl, rfl, by decide, by decide⟩

/-- C2: for every input segment list and any classification service that
preserves segment count, order, timestamps and texts (as the diarize edge
function does), diarizeSegments returns a list of the same length whose
segment at each position carries the same timestamp and text as the input
segment at that position, in input order; only speaker labels may
differ. -/
theorem diarize_preserves_count_order_text (classify : List Segment → ClassifyOutcome)
    (hclassify : ∀ b r, classify b = ClassifyOutcome.data r → shape r = shape b)
    (segments : List Segment) :
    shape (diarizeSegments classify segments) = shape segments ∧
    (diarizeSegments classify segments).length = segments.length ∧
    ∀ i : ℕ, ((diarizeSegments classify segments)[i]?).map (fun s => (s.timestamp, s.text)) =
      (segments[i]?).map (fun s => (s.timestamp, s.text)) := by
  have hs : shape (diarizeSegments classify segments) = shape segments := by
    unfold diarizeSegments
    split
    · rfl
    split
    · rfl
    · cases hr : runBatches classify 0 0 (toBatches segments) with
      | none => rfl
      | some res =>
          simp only [hr]
          rw [runBatches_shape classify hclassify _ _ _ _ hr, toBatches_flatten]
  refine ⟨hs, ?_, ?_⟩
  · have hlen := congrArg List.length hs
    simpa [shape] using hlen
  · intro i
    have hget := congrArg (fun l => l[i]?) hs
    simpa [shape, List.getElem?_map] using hget

/-- Witness for C2: the edge-function classifier on three concrete
segments. -/
theorem diarize_preserves_count_order_text_witness :
    shape (diarizeSegments demoClassifyEdge demoSegments3) = shape demoSegments3 ∧
    (diarizeSegments demoClassifyEdge demoSegments3).length = demoSegments3.length := by
  have h := diarize_preserves_count_order_text demoClassifyEdge ?_ demoSegments3
  · exact ⟨h.1, h.2.1⟩
  · intro b r hbr
    simp only [demoClassifyEdge, ClassifyOutcome.data.injEq] at hbr
    rw [← hbr]
    exact applyAssignments_shape demoAssignments b

/-- C3: diarizeSegments recovers from service failures without throwing.
First conjunct: when no classification call throws and the call for batch
k returns an error, the result decomposes batchwise, batch k passing
through unchanged while every other batch j is processed normally (kept on
error or missing data, relabelled on returned data).  Second conjunct: a
thrown exception anywhere makes the whole original input be returned
unchanged. -/
theorem diarize_error_isolation (classify : List Segment → ClassifyOutcome)
    (segments : List Segment) :
    (∀ k, (hk : k < (toBatches segments).length) →
       (∀ b ∈ toBatches segments, classify b ≠ ClassifyOutcome.thrown) →
       classify ((toBatches segments).get ⟨k, hk⟩) = ClassifyOutcome.err →
       diarizeSegments classify segments =
         ((toBatches segments).mapIdx fun j b =>
            if j = k then b else batchResult classify j b).flatten) ∧
    ((∃ b ∈ toBatches segments, classify b = ClassifyOutcome.thrown) →
       diarizeSegments classify segments = segments) := by
  constructor
  · intro k hk hno herr
    have hmap : ((toBatches segments).mapIdx fun j b =>
        if j = k then b else batchResult classify j b) =
        (toBatches segments).mapIdx fun j b => batchResult classify j b := by
      refine mapIdxAgree _ _ _ (fun j hj => ?_)
      by_cases hjk : j = k
      · subst hjk
        have : (toBatches segments).get ⟨j, hj⟩ = (toBatches segments)[j] := rfl
        rw [this] at herr
        simp [batchResult, herr]
      · simp [hjk]
    rw [hmap]
    unfold diarizeSegments
    split
    · rename_i h0
      rw [List.length_eq_zero.1 h0] at hk
      simp [toBatches, toBatchesAux] at hk
    split
    · rename_i h0 h2
      have hne : segments ≠ [] := by
        intro hnil
        exact h0 (by simp [hnil])
      have hsing : toBatches segments = [segments] :=
        toBatches_singleton segments hne (by simp only [MAX_SEGMENTS_PER_BATCH]; omega)
      have hk0 : k = 0 := by
        have hlt := hk
        rw [hsing] at hlt
        simpa using Nat.lt_one_iff.1 hlt
      have herr' : classify segments = ClassifyOutcome.err := by
        have hget := List.get_of_eq hsing ⟨k, hk⟩
        rw [hget] at herr
        subst hk0
        simpa using herr
      rw [hsing]
      simp [List.mapIdx_cons, batchResult, herr']
    · rw [runBatches_eq_mapIdx classify _ 0 0 hno]
      have h0j : ((toBatches segments).mapIdx fun j b => batchResult classify (0 + j) b) =
          (toBatches segments).mapIdx fun j b => batchResult classify j b :=
        mapIdxAgree _ _ _ (fun j hj => by rw [Nat.zero_add])
      rw [h0j]
  · rintro ⟨b, hb, hthrow⟩
    unfold diarizeSegments
    split
    · rfl
    split
    · rfl
    · rw [runBatches_none classify _ 0 0 ⟨b, hb, hthrow⟩]

/-- Witness for C3: a service erring on the only batch leaves the input
unchanged, and so does a service that throws. -/
theorem diarize_error_isolation_witness :
    diarizeSegments demoClassifyErr demoSegments3 = demoSegments3 ∧
    diarizeSegments demoClassifyThrow demoSegments3 = demoSegments3 := by
  constructor
  · have hsing : toBatches demoSegments3 = [demoSegments3] := rfl
    have h := (diarize_error_isolation demoClassifyErr demoSegments3).1 0
      (by rw [hsing]; exact Nat.one_pos)
      (fun _ _ hcontra => ClassifyOutcome.noConfusion hcontra)
      rfl
    exact h.trans rfl
  · refine (diarize_error_isolation demoClassifyThrow demoSegments3).2
      ⟨demoSegments3, ?_, rfl⟩
    rw [show toBatches demoSegments3 = [demoSegments3] from rfl]
    exact List.mem_singleton_self _

theorem runLoadHandler_quiet (s : SupervisorState) :
    ∀ messages : List (ℕ × WorkerMsg),
      (∀ p ∈ messages, p.2 ≠ WorkerMsg.ready ∧ ∀ e, p.2 ≠ WorkerMsg.error e) →
      runLoadHandler s messages = (LoadOutcome.rejected loadTimeoutMs loadTimeoutMessage, resetWorker s) := by
  intro messages
  induction messages with
  | nil => intro _; rfl
  | cons p rest ih =>
      intro h
      rw [runLoadHandler]
      split
      · rfl
      · cases hm : p.2 with
        | alive => exact ih fun q hq => h q (List.mem_cons_of_mem _ hq)
        | progress msg => exact ih fun q hq => h q (List.mem_cons_of_mem _ hq)
        | ready => exact absurd hm (h p (List.mem_cons_self _ _)).1
        | error e => exact absurd hm ((h p (List.mem_cons_self _ _)).2 e)

/-- C4: when a worker load never receives a ready or error response,
initializeWorker rejects with the load-timeout error at (not before) the
configured 5-minute timeout — the rejection is the timeout firing at
loadTimeoutMs = 5 * 60 * 1000 — and afterwards the module state holds no
worker (worker = none, workerReady = false, and no stored promise), so
the next call goes through worker creation: getOrCreateWorker on the
post-state allocates a brand-new worker whose identity differs from the
worker used by the stalled load. -/
theorem worker_load_timeout (s : SupervisorState) (messages : List (ℕ × WorkerMsg))
    (hnotready : s.workerReady = false)
    (hquiet : ∀ p ∈ messages, p.2 ≠ WorkerMsg.ready ∧ ∀ e, p.2 ≠ WorkerMsg.error e)
    (hinv : ∀ w, s.worker = some w → w < s.nextWorkerId) :
    (initializeWorker s messages).1 = LoadOutcome.rejected loadTimeoutMs loadTimeoutMessage ∧
    loadTimeoutMs = 5 * 60 * 1000 ∧
    (initializeWorker s messages).2.worker = none ∧
    (initializeWorker s messages).2.workerReady = false ∧
    (initializeWorker s messages).2.workerReadyPromise = false ∧
    (getOrCreateWorker (initializeWorker s messages).2).1 =
      (initializeWorker s messages).2.nextWorkerId ∧
    (getOrCreateWorker (initializeWorker s messages).2).1 ≠
      (getOrCreateWorker s).1 := by
  have hcond : ¬(s.workerReady ∧ s.workerReadyPromise) := by
    rw [hnotready]
    simp
  unfold initializeWorker
  rw [if_neg hcond, runLoadHandler_quiet _ messages hquiet]
  refine ⟨rfl, rfl, rfl, rfl, rfl, ?_, ?_⟩
  · cases hw : s.worker <;> simp [getOrCreateWorker, createWorker, resetWorker, hw]
  · cases hw : s.worker with
    | none =>
        simp [getOrCreateWorker, createWorker, resetWorker, hw]
    | some w =>
        have hlt := hinv w hw
        simp [getOrCreateWorker, createWorker, resetWorker, hw]
        omega

/-- An initial supervisor state: no worker, no promise, not ready. -/
def initialSupervisorState : SupervisorState :=
  { worker := none, workerReadyPromise := false, workerReady := false, nextWorkerId := 0 }

/-- Witness for C4: a load that only ever reports liveness and progress
times out and clears the state. -/
theorem worker_load_timeout_witness :
    (initializeWorker initialSupervisorState
        [(0, WorkerMsg.alive), (1000, WorkerMsg.progress "Loading AI Model...")]).1 =
      LoadOutcome.rejected loadTimeoutMs loadTimeoutMessage ∧
    (initializeWorker initialSupervisorState
        [(0, WorkerMsg.alive), (1000, WorkerMsg.progress "Loading AI Model...")]).2.worker =
      none := by
  have h := worker_load_timeout initialSupervisorState
    [(0, WorkerMsg.alive), (1000, WorkerMsg.progress "Loading AI Model...")]
    rfl
    (by
      intro p hp
      rcases List.mem_cons.1 hp with rfl | hp'
      · exact ⟨by simp, fun e => by simp⟩
      rcases List.mem_cons.1 hp' with rfl | hp''
      · exact ⟨by simp, fun e => by simp⟩
      · simp at hp'')
    (fun w hw => Option.noConfusion hw)
  exact ⟨h.1, h.2.2.1⟩

/-- C10: whenever transcribeWithWhisper propagates an error — from worker
initialization, audio decoding (which has nothing to do with the worker),
or the engine — the supervisor state it leaves behind is fully reset:
no worker, no stored promise, workerReady = false.  In particular a
previously loaded healthy worker is discarded on a decode error. -/
theorem transcribe_resets_worker_on_error (initMessages : List (ℕ × WorkerMsg))
    (decodeResult : Except String (List ℚ))
    (engine : ℤ → Except String (Option EngineOutput))
    (classify : List Segment → ClassifyOutcome)
    (s : SupervisorState) (e : String)
    (herr : (transcribeWithWhisper initMessages decodeResult engine classify s).1 =
      Except.error e) :
    (transcribeWithWhisper initMessages decodeResult engine classify s).2.worker = none ∧
    (transcribeWithWhisper initMessages decodeResult engine classify s).2.workerReadyPromise =
      false ∧
    (transcribeWithWhisper initMessages decodeResult engine classify s).2.workerReady = false := by
  unfold transcribeWithWhisper at herr ⊢
  rcases hinit : initializeWorker s initMessages with ⟨o, s1⟩
  rw [hinit] at herr
  cases o with
  | rejected t msg => exact ⟨rfl, rfl, rfl⟩
  | resolved t =>
      cases decodeResult with
      | error e' => exact ⟨rfl, rfl, rfl⟩
      | ok audioData =>
          dsimp only at herr ⊢
          cases heng : engine (transcriptionTimeoutMs (audioSecondsOf audioData)) with
          | error e' => exact ⟨rfl, rfl, rfl⟩
          | ok output =>
              rw [heng] at herr
              exact Except.noConfusion herr

/-- A supervisor state with a loaded, healthy worker. -/
def loadedSupervisorState : SupervisorState :=
  { worker := some 0, workerReadyPromise := true, workerReady := true, nextWorkerId := 1 }

/-- Witness for C10: a decode failure with a loaded healthy worker still
clears the whole supervisor state. -/
theorem transcribe_resets_worker_on_error_witness :
    (transcribeWithWhisper [] (Except.error "Audio decoding timed out.")
        (fun _ => Except.ok none) (fun _ => ClassifyOutcome.noData)
        loadedSupervisorState).2.worker = none ∧
    (transcribeWithWhisper [] (Except.error "Audio decoding timed out.")
        (fun _ => Except.ok none) (fun _ => ClassifyOutcome.noData)
        loadedSupervisorState).2.workerReadyPromise = false ∧
    (transcribeWithWhisper [] (Except.error "Audio decoding timed out.")
        (fun _ => Except.ok none) (fun _ => ClassifyOutcome.noData)
        loadedSupervisorState).2.workerReady = false :=
  transcribe_resets_worker_on_error [] (Except.error "Audio decoding timed out.")
    (fun _ => Except.ok none) (fun _ => ClassifyOutcome.noData)
    loadedSupervisorState "Audio decoding timed out." rfl

theorem jsStringOr_ne_empty (a : Option String) (d : String) (hd : d ≠ "") :
    jsStringOr a d ≠ "" := by
  cases a with
  | none => exact hd
  | some s =>
      show (if s = "" then d else s) ≠ ""
      split
      · exact hd
      · assumption

/-- C5 counterexample: with zero chunks and the non-empty whole text
" hi ", the single returned segment's text is the trimmed "hi", not the
engine's whole-text output " hi " the claim requires. -/
theorem zero_chunks_raw_text_not_used :
    ((some { text := some " hi ", chunks := none } : Option EngineOutput).bind
        EngineOutput.chunks).getD [] = [] ∧
    completeToSegments (some { text := some " hi ", chunks := none }) =
      [{ timestamp := 0, text := "hi", speaker := "Speaker 1" }] ∧
    (" hi " : String) ≠ "" ∧
    (" hi " : String) ≠ "hi" := by
  refine ⟨rfl, rfl, by decide, by decide⟩

/-- C5 (amended): for every completed engine response whose chunk list is
empty or absent, transcribeWithWhisper builds exactly one segment with
timestamp 0; that segment's text is the engine's whole-text output trimmed
of surrounding whitespace when that trimmed text is non-empty, and
otherwise the fixed non-empty placeholder — the result is never empty and
never contains an empty-text segment on this path. -/
theorem zero_chunks_single_segment (output : Option EngineOutput)
    (hchunks : (output.bind EngineOutput.chunks).getD [] = []) :
    completeToSegments output =
      [{ timestamp := 0
         text := jsStringOr ((output.bind EngineOutput.text).map jsTrim)
           noTranscriptionPlaceholder
         speaker := "Speaker 1" }] ∧
    (∀ raw, output.bind EngineOutput.text = some raw → jsTrim raw ≠ "" →
       completeToSegments output =
         [{ timestamp := 0, text := jsTrim raw, speaker := "Speaker 1" }]) ∧
    (∀ raw, output.bind EngineOutput.text = some raw → jsTrim raw = "" →
       completeToSegments output =
         [{ timestamp := 0, text := noTranscriptionPlaceholder, speaker := "Speaker 1" }]) ∧
    (output.bind EngineOutput.text = none →
       completeToSegments output =
         [{ timestamp := 0, text := noTranscriptionPlaceholder, speaker := "Speaker 1" }]) ∧
    completeToSegments output ≠ [] ∧
    ∀ seg ∈ completeToSegments output, seg.text ≠ "" ∧ seg.timestamp = 0 := by
  have hmain : completeToSegments output =
      [{ timestamp := 0
         text := jsStringOr ((output.bind EngineOutput.text).map jsTrim)
           noTranscriptionPlaceholder
         speaker := "Speaker 1" }] := by
    unfold completeToSegments
    rw [hchunks]
    rfl
  refine ⟨hmain, ?_, ?_, ?_, ?_, ?_⟩
  · intro raw hraw htrim
    rw [hmain, hraw]
    simp [jsStringOr, htrim]
  · intro raw hraw htrim
    rw [hmain, hraw]
    simp [jsStringOr, htrim]
  · intro hnone
    rw [hmain, hnone]
    rfl
  · rw [hmain]
    exact fun hcontra => List.noConfusion hcontra
  · intro seg hseg
    rw [hmain] at hseg
    rcases List.mem_singleton.1 hseg with rfl
    exact ⟨jsStringOr_ne_empty _ _ (by decide), rfl⟩

/-- Witness for C5: whole text "  hello there  " with no chunks yields the
trimmed single segment. -/
theorem zero_chunks_single_segment_witness :
    completeToSegments (some { text := some "  hello there  ", chunks := none }) =
      [{ timestamp := 0, text := "hello there", speaker := "Speaker 1" }] := by
  have h := zero_chunks_single_segment
    (some { text := some "  hello there  ", chunks := none }) rfl
  exact (h.2.1 "  hello there  " rfl (by decide)).trans (by rfl)

theorem downsampleLoop_length (input : List ℚ) (r : ℚ) :
    ∀ rem outputOffset inputOffset : ℕ,
      (downsampleLoop input r rem outputOffset inputOffset).length = rem := by
  intro rem
  induction rem with
  | zero => intro _ _; rfl
  | succ n ih =>
      intro o i
      rw [downsampleLoop]
      simp [ih]

theorem downsampleLoop_getD (input : List ℚ) (r : ℚ) :
    ∀ rem outputOffset k : ℕ, k < rem →
      (downsampleLoop input r rem outputOffset
          ((jsRound ((outputOffset : ℚ) * r)).toNat)).getD k 0 =
        codeWindowValue input r (outputOffset + k) := by
  intro rem
  induction rem with
  | zero => intro o k hk; exact absurd hk (Nat.not_lt_zero k)
  | succ n ih =>
      intro o k hk
      cases k with
      | zero =>
          rw [Nat.add_zero]
          rfl
      | succ k' =>
          have hstep : (downsampleLoop input r (n + 1) o
              ((jsRound ((o : ℚ) * r)).toNat)).getD (k' + 1) 0 =
              (downsampleLoop input r n (o + 1)
                ((jsRound (((o + 1 : ℕ) : ℚ) * r)).toNat)).getD k' 0 := by
            have hcast : (((o + 1 : ℕ) : ℚ)) = ((o : ℚ) + 1) := by push_cast; ring
            rw [hcast]
            rfl
          rw [hstep, ih (o + 1) k' (Nat.lt_of_succ_lt_succ hk)]
          congr 1
          omega

theorem window_bounds (L : ℕ) (r : ℚ) (hr : 1 < r) (i : ℕ)
    (hi : i < (jsRound ((L : ℚ) / r)).toNat) :
    (jsRound ((i : ℚ) * r)).toNat < L ∧
    (jsRound ((i : ℚ) * r)).toNat < (jsRound (((i : ℚ) + 1) * r)).toNat := by
  have hr0 : (0 : ℚ) < r := lt_trans one_pos hr
  have hrne : r ≠ 0 := ne_of_gt hr0
  have hfl1 : (i : ℤ) < ⌊(L : ℚ) / r + 1 / 2⌋ := by
    rw [← jsRound_eq_floor]
    exact Int.lt_toNat.1 hi
  have hq1 : ((i : ℚ) + 1) ≤ (L : ℚ) / r + 1 / 2 := by
    have := Int.le_floor.1 (Int.add_one_le_iff.2 hfl1)
    push_cast at this
    linarith
  have hq2 : ((i : ℚ) + 1) * r ≤ (L : ℚ) + r / 2 := by
    have hmul := mul_le_mul_of_nonneg_right hq1 (le_of_lt hr0)
    have hexp : ((L : ℚ) / r + 1 / 2) * r = (L : ℚ) + r / 2 := by
      rw [add_mul, div_mul_cancel₀ _ hrne]
      ring
    linarith [hmul, le_of_eq hexp]
  have hq3 : (i : ℚ) * r + 1 / 2 < (L : ℚ) := by nlinarith
  have hlo_lt : ⌊(i : ℚ) * r + 1 / 2⌋ < (L : ℤ) := Int.floor_lt.2 (by exact_mod_cast hq3)
  have hlo_nonneg : 0 ≤ ⌊(i : ℚ) * r + 1 / 2⌋ :=
    Int.floor_nonneg.2 (by positivity)
  have hmono : ⌊(i : ℚ) * r + 1 / 2⌋ + 1 ≤ ⌊((i : ℚ) + 1) * r + 1 / 2⌋ := by
    have hle : (i : ℚ) * r + 1 / 2 + 1 ≤ ((i : ℚ) + 1) * r + 1 / 2 := by nlinarith
    calc ⌊(i : ℚ) * r + 1 / 2⌋ + 1 = ⌊(i : ℚ) * r + 1 / 2 + 1⌋ := (Int.floor_add_one _).symm
      _ ≤ ⌊((i : ℚ) + 1) * r + 1 / 2⌋ := Int.floor_le_floor hle
  constructor
  · rw [jsRound_eq_floor]
    omega
  · rw [jsRound_eq_floor, jsRound_eq_floor]
    omega

/-- C6 (amended): for positive rates with the input rate above the output
rate, downsampleBuffer returns a buffer of length
round(inputLength / (inputRate / outputRate)) whose sample at each index i
is the mean of the input samples in the window with rounded boundaries
[round(i * ratio), round((i + 1) * ratio)) clipped to the input length
(falling back to the sample at the window start when the window is empty);
consequently every output sample of a constant-valued input equals that
constant. -/
theorem downsample_rounded_window_mean (input : List ℚ)
    (inputSampleRate outputSampleRate : ℚ)
    (h0 : 0 < outputSampleRate) (h1 : outputSampleRate < inputSampleRate) :
    ∃ out : List ℚ,
      downsampleBuffer input inputSampleRate outputSampleRate = Except.ok out ∧
      out.length =
        (jsRound ((input.length : ℚ) / (inputSampleRate / outputSampleRate))).toNat ∧
      (∀ i, i < out.length →
        out.getD i 0 = codeWindowValue input (inputSampleRate / outputSampleRate) i) ∧
      (∀ c, (∀ x ∈ input, x = c) → ∀ y ∈ out, y = c) := by
  have hne : inputSampleRate ≠ outputSampleRate := ne_of_gt h1
  have hnlt : ¬inputSampleRate < outputSampleRate := not_lt_of_gt h1
  have hr : 1 < inputSampleRate / outputSampleRate := (one_lt_div h0).2 h1
  set r := inputSampleRate / outputSampleRate with hrdef
  have hz : (jsRound (((0 : ℕ) : ℚ) * r)).toNat = 0 := by
    rw [Nat.cast_zero, zero_mul, jsRound_zero]
    rfl
  have hchar : ∀ i, i < (jsRound ((input.length : ℚ) / r)).toNat →
      (downsampleLoop input r ((jsRound ((input.length : ℚ) / r)).toNat) 0 0).getD i 0 =
        codeWindowValue input r i := by
    intro i hi
    have hgd := downsampleLoop_getD input r ((jsRound ((input.length : ℚ) / r)).toNat) 0 i hi
    rw [hz] at hgd
    simpa using hgd
  refine ⟨downsampleLoop input r ((jsRound ((input.length : ℚ) / r)).toNat) 0 0, ?_, ?_, ?_, ?_⟩
  · unfold downsampleBuffer
    rw [if_neg hne, if_neg hnlt]
  · exact downsampleLoop_length input r _ 0 0
  · intro i hi
    rw [downsampleLoop_length] at hi
    exact hchar i hi
  · intro c hc y hy
    obtain ⟨⟨i, hilen⟩, rfl⟩ := List.mem_iff_get.1 hy
    have hi : i < (jsRound ((input.length : ℚ) / r)).toNat := by
      rw [downsampleLoop_length] at hilen
      exact hilen
    have hget : (downsampleLoop input r ((jsRound ((input.length : ℚ) / r)).toNat) 0 0).get
        ⟨i, hilen⟩ =
        (downsampleLoop input r ((jsRound ((input.length : ℚ) / r)).toNat) 0 0).getD i 0 :=
      (List.getD_eq_getElem _ _ hilen).symm
    rw [hget, hchar i hi]
    obtain ⟨hlo, hlohi⟩ := window_bounds input.length r hr i hi
    unfold codeWindowValue
    set lo := (jsRound ((i : ℚ) * r)).toNat with hlodef
    set hi2 := (jsRound (((i : ℚ) + 1) * r)).toNat with hhidef
    have hwinlen : ((input.drop lo).take (hi2 - lo)).length = min (hi2 - lo) (input.length - lo) := by
      rw [List.length_take, List.length_drop]
    have hwinpos : ((input.drop lo).take (hi2 - lo)).length ≠ 0 := by
      rw [hwinlen]
      omega
    rw [if_neg hwinpos]
    have hmem : ∀ x ∈ (input.drop lo).take (hi2 - lo), x = c := by
      intro x hx
      exact hc x (List.drop_subset lo input (List.take_subset _ _ hx))
    rw [List.sum_eq_card_nsmul _ c hmem, nsmul_eq_mul, mul_comm,
      mul_div_assoc, div_self (by exact_mod_cast hwinpos), mul_one]

/-- C6 counterexample: with input [0, 100, 0, 0, 0] at 20000 Hz
downsampled to 16000 Hz (ratio 5/4), the code's output sample 1 is 50 —
the mean of input samples 1 and 2, its rounded window being
[round(1.25), round(2.5)) = [1, 3) — while the claim's window
[1.25, 2.5) holds only sample 2, whose mean is 0; the claim's equality
fails at index 1. -/
theorem downsample_uses_rounded_not_exact_windows :
    ((downsampleBuffer [0, 100, 0, 0, 0] 20000 16000).toOption.getD []).getD 1 0 = 50 ∧
    specWindowMean [0, 100, 0, 0, 0] (20000 / 16000) 1 = 0 ∧
    (50 : ℚ) ≠ 0 := by
  refine ⟨?_, ?_, by norm_num⟩
  · have hlen : (jsRound ((([0, 100, 0, 0, 0] : List ℚ).length : ℚ) /
        ((20000 : ℚ) / 16000))).toNat = 4 := by
      rw [show ((([0, 100, 0, 0, 0] : List ℚ).length : ℚ) / ((20000 : ℚ) / 16000)) =
        ((4 : ℕ) : ℚ) by push_cast; norm_num, jsRound_natCast]
      rfl
    have hok : downsampleBuffer [0, 100, 0, 0, 0] 20000 16000 =
        Except.ok (downsampleLoop [0, 100, 0, 0, 0] ((20000 : ℚ) / 16000) 4 0 0) := by
      unfold downsampleBuffer
      rw [if_neg (by norm_num), if_neg (by norm_num)]
      dsimp only
      rw [hlen]
    rw [hok]
    have hz : (jsRound (((0 : ℕ) : ℚ) * ((20000 : ℚ) / 16000))).toNat = 0 := by
      rw [Nat.cast_zero, zero_mul, jsRound_zero]
      rfl
    have hgd := downsampleLoop_getD [0, 100, 0, 0, 0] ((20000 : ℚ) / 16000) 4 0 1 (by norm_num)
    rw [hz] at hgd
    simp only [Except.toOption, Option.getD_some, Nat.zero_add] at hgd ⊢
    rw [hgd]
    unfold codeWindowValue
    rw [show (((1 : ℕ) : ℚ)) * ((20000 : ℚ) / 16000) = 5 / 4 by push_cast; norm_num,
      show ((((1 : ℕ) : ℚ)) + 1) * ((20000 : ℚ) / 16000) = 5 / 2 by push_cast; norm_num,
      show jsRound ((5 : ℚ) / 4) = 1 from jsRound_eq _ _ (by norm_num) (by norm_num),
      show jsRound ((5 : ℚ) / 2) = 3 from jsRound_eq _ _ (by norm_num) (by norm_num)]
    rw [show Int.toNat 3 = 3 from rfl]
    norm_num [List.take_succ_cons, List.take_zero, List.sum_cons, List.sum_nil]
  · have hrange : List.range ([0, 100, 0, 0, 0] : List ℚ).length = [0, 1, 2, 3, 4] := rfl
    unfold specWindowMean specWindow
    rw [hrange]
    norm_num [List.filter, List.sum_cons, List.sum_nil]

/-- Witness for C6 (amended): a constant signal downsampled 48 kHz to
16 kHz stays constant. -/
theorem downsample_rounded_window_mean_witness :
    ∃ out : List ℚ, downsampleBuffer [3, 3, 3] 48000 16000 = Except.ok out ∧
      ∀ y ∈ out, y = 3 := by
  obtain ⟨out, hok, -, -, hconst⟩ :=
    downsample_rounded_window_mean [3, 3, 3] 48000 16000 (by norm_num) (by norm_num)
  refine ⟨out, hok, hconst 3 ?_⟩
  intro x hx
  simpa using hx
